import Mathlib

/-!
Verification of the stream-cipher module generator of `sodiumoxide`
(`src/crypto/stream_macros.rs`, macro `stream_module!`).

The macro, given parameters `$stream_name` / `$xor_name` (two entry points
of an external cipher engine) and the sizes `$keybytes` / `$noncebytes`,
emits a module with types `Key`, `Nonce` and functions `stream`,
`stream_xor`, `stream_xor_inplace`.  We embed the emitted module
generically: the development is parameterised over the macro's size
parameters and over the external engine, exactly as the macro is.

Bytes (`u8`) are modelled as natural numbers; all properties proved here
are closed under the byte range because `Nat.xor` of values below 256 stays
below 256, and none of the claims depend on the 256 bound.  `usize` lengths
are modelled as `Nat`; the `len as c_ulonglong` cast in the source is the
identity on the supported 64-bit targets (`usize` = `u64`), so it is not
reproduced in the model.
-/

namespace StreamModule

/-- A `u8` byte, modelled as a natural number. -/
abbrev Byte := Nat

/-- `pub struct Key(pub [u8; KEYBYTES])`: a fixed-length byte array whose
length is the macro parameter `$keybytes`. -/
structure Key (keybytes : Nat) where
  bytes : List Byte
  size_eq : bytes.length = keybytes

/-- `pub struct Nonce(pub [u8; NONCEBYTES])`: a fixed-length byte array
whose length is the macro parameter `$noncebytes`. -/
structure Nonce (noncebytes : Nat) where
  bytes : List Byte
  size_eq : bytes.length = noncebytes

/-- Modelled from the spec: the external cipher engine (the
`$stream_name` / `$xor_name` FFI entry points are not part of this
repository).  The spec treats the engine as an opaque primitive producing
"deterministic output" — `length` keystream bytes "deterministically
derived from (key, nonce)".  An `Engine` is therefore the function giving
the keystream byte at each position for given nonce and key bytes. -/
def Engine : Type := List Byte → List Byte → Nat → Byte

/-- Modelled from the spec: the engine entry point
`generate_keystream(out_buffer, out_length, nonce, key)` — called
`$stream_name(c.as_mut_ptr(), len, n, k)` in the source.  It overwrites the
first `len` bytes of the buffer with the keystream bytes; bytes of the
buffer past `len` (none at the source's call site) are left unchanged. -/
def engine_stream (e : Engine) (buf : List Byte) (len : Nat)
    (n k : List Byte) : List Byte :=
  (List.range len).map (e n k) ++ buf.drop len

/-- Modelled from the spec: the engine entry point
`xor_with_keystream(out_buffer, in_buffer, length, nonce, key)` — called
`$xor_name(c.as_mut_ptr(), m.as_ptr(), len, n, k)` in the source.  It
overwrites the first `len` bytes of the output buffer with the input bytes
XOR-ed with the keystream; the engine reads `in_buffer[i]` before writing
`out_buffer[i]`, position by position, so the result at position `i`
depends only on the input byte at position `i` (this is what makes the
aliased in-place call site well defined). -/
def engine_xor (e : Engine) (buf m : List Byte) (len : Nat)
    (n k : List Byte) : List Byte :=
  (List.range len).map (fun i => m.getD i 0 ^^^ e n k i) ++ buf.drop len

/-- `stream()` from the source: allocate `len` zero bytes
(`repeat(0u8).take(len).collect()`), then let the engine overwrite them
(`$stream_name(c.as_mut_ptr(), c.len(), n, k)`), and return the buffer. -/
def stream {kb nb : Nat} (e : Engine) (len : Nat) (n : Nonce nb)
    (k : Key kb) : List Byte :=
  engine_stream e (List.replicate len 0) len n.bytes k.bytes

/-- `stream_xor()` from the source: allocate `m.len()` zero bytes, then let
the engine write `m XOR keystream` into them
(`$xor_name(c.as_mut_ptr(), m.as_ptr(), m.len(), n, k)`), and return the
buffer. -/
def stream_xor {kb nb : Nat} (e : Engine) (m : List Byte) (n : Nonce nb)
    (k : Key kb) : List Byte :=
  engine_xor e (List.replicate m.length 0) m m.length n.bytes k.bytes

/-- `stream_xor_inplace()` from the source: the same engine call with the
message buffer itself as both output and input
(`$xor_name(m.as_mut_ptr(), m.as_ptr(), m.len(), n, k)`); the buffer after
the call is the function's result in this functional embedding. -/
def stream_xor_inplace {kb nb : Nat} (e : Engine) (m : List Byte)
    (n : Nonce nb) (k : Key kb) : List Byte :=
  engine_xor e m m m.length n.bytes k.bytes

/-- The construction errors of the spec's error taxonomy. -/
inductive NewtypeError where
  | InvalidLength
  deriving DecidableEq

/-- Modelled from the spec: `newtype_impl!(Key, KEYBYTES)` (the macro body
lives outside this repository slice) — "construction from a raw byte
sequence of the exact required length (fails with `InvalidLength`
otherwise)". -/
def Key.from_slice (keybytes : Nat) (bs : List Byte) :
    Except NewtypeError (Key keybytes) :=
  if h : bs.length = keybytes then .ok ⟨bs, h⟩ else .error .InvalidLength

/-- Modelled from the spec: `newtype_impl!(Nonce, NONCEBYTES)` (the macro
body lives outside this repository slice) — "construction from a raw byte
sequence of the exact required length (fails with `InvalidLength`
otherwise)". -/
def Nonce.from_slice (noncebytes : Nat) (bs : List Byte) :
    Except NewtypeError (Nonce noncebytes) :=
  if h : bs.length = noncebytes then .ok ⟨bs, h⟩ else .error .InvalidLength

/-- A call-level embedding of `stream_xor` used for the frame claim: the
call receives the message, nonce and key buffers; the body only reads
them — the sole buffer the engine may write through is the fresh output
vector's mutable pointer (`c.as_mut_ptr()`; `m` is passed by shared
borrow as `m.as_ptr()`).  The call returns the post-call contents of the
three input buffers together with the output. -/
def stream_xor_call {kb nb : Nat} (e : Engine) (m : List Byte)
    (n : Nonce nb) (k : Key kb) :
    (List Byte × List Byte × List Byte) × List Byte :=
  ((m, n.bytes, k.bytes), stream_xor e m n k)

/- ------------------------------------------------------------------ -/
/- Helper lemmas                                                       -/
/- ------------------------------------------------------------------ -/

/-- `stream` unfolds to the pointwise keystream map. -/
theorem stream_eq_map {kb nb : Nat} (e : Engine) (len : Nat) (n : Nonce nb)
    (k : Key kb) :
    stream e len n k = (List.range len).map (e n.bytes k.bytes) := by
  simp [stream, engine_stream]

/-- `stream_xor` unfolds to the pointwise XOR map. -/
theorem stream_xor_eq_map {kb nb : Nat} (e : Engine) (m : List Byte)
    (n : Nonce nb) (k : Key kb) :
    stream_xor e m n k =
      (List.range m.length).map
        (fun i => m.getD i 0 ^^^ e n.bytes k.bytes i) := by
  simp [stream_xor, engine_xor]

/-- `zipWith f` of a list against a map over `range` of its length is the
pointwise map over the range. -/
theorem zipWith_map_range (f : Byte → Byte → Byte) (g : Nat → Byte) :
    ∀ m : List Byte,
      List.zipWith f m ((List.range m.length).map g) =
        (List.range m.length).map (fun i => f (m.getD i 0) (g i))
  | [] => by simp
  | a :: m => by
    have hr : List.range (m.length + 1) =
        0 :: (List.range m.length).map Nat.succ := List.range_succ_eq_map _
    have ih := zipWith_map_range f (fun i => g (i + 1)) m
    simp only [List.length_cons, hr, List.map_cons, List.zipWith_cons_cons,
      List.map_map, Function.comp_def, Nat.succ_eq_add_one,
      List.getD_cons_zero, List.getD_cons_succ]
    exact congrArg (List.cons _) ih

/-- Helper: `stream_xor` output length equals input length. -/
theorem length_stream_xor {kb nb : Nat} (e : Engine) (m : List Byte)
    (n : Nonce nb) (k : Key kb) :
    (stream_xor e m n k).length = m.length := by
  simp [stream_xor_eq_map]

/-- Helper: `getD` of a map over `List.range` below the length. -/
theorem getD_map_range (f : Nat → Byte) (len i : Nat) (h : i < len) :
    ((List.range len).map f).getD i 0 = f i := by
  rw [List.getD_eq_getElem _ _ (by simpa using h)]
  simp

/-- Helper: mapping `getD` over the range of a list's length recovers the
list. -/
theorem map_getD_range_eq_self (m : List Byte) :
    (List.range m.length).map (fun i => m.getD i 0) = m := by
  apply List.ext_getElem
  · simp
  · intro i h1 h2
    simp [List.getElem?_eq_getElem h2]

/- ------------------------------------------------------------------ -/
/- Claims                                                              -/
/- ------------------------------------------------------------------ -/

/-- Claim C1: for every key `k`, nonce `n` and message `m` (including the
empty message), applying `stream_xor` twice with the same nonce and key
returns the original message. -/
theorem stream_xor_roundtrip {kb nb : Nat} (e : Engine) (m : List Byte)
    (n : Nonce nb) (k : Key kb) :
    stream_xor e (stream_xor e m n k) n k = m := by
  conv_lhs => rw [stream_xor_eq_map e (stream_xor e m n k) n k]
  rw [length_stream_xor]
  have hgd : ∀ i, i < m.length →
      (stream_xor e m n k).getD i 0 =
        m.getD i 0 ^^^ e n.bytes k.bytes i := by
    intro i hi
    rw [stream_xor_eq_map, getD_map_range _ _ _ hi]
  calc
    (List.range m.length).map
        (fun i => (stream_xor e m n k).getD i 0 ^^^ e n.bytes k.bytes i)
      = (List.range m.length).map (fun i => m.getD i 0) := by
        refine List.map_congr_left ?_
        intro i hi
        rw [hgd i (List.mem_range.mp hi), Nat.xor_cancel_right]
    _ = m := map_getD_range_eq_self m

/-- Claim C2: for every key `k`, nonce `n` and message `m`, the output of
`stream_xor m n k` equals, byte for byte, `m` XOR-ed element-wise with
`stream m.length n k`. -/
theorem stream_xor_eq_xor_stream {kb nb : Nat} (e : Engine) (m : List Byte)
    (n : Nonce nb) (k : Key kb) :
    stream_xor e m n k =
      List.zipWith (fun a b => a ^^^ b) m (stream e m.length n k) := by
  rw [stream_xor_eq_map, stream_eq_map, zipWith_map_range]

/-- Claim C3: running `stream_xor_inplace` on a mutable copy of `m` leaves
the buffer holding exactly the bytes `stream_xor m n k` returns: the
in-place and allocating variants are byte-identical on identical inputs. -/
theorem stream_xor_inplace_eq_stream_xor {kb nb : Nat} (e : Engine)
    (m : List Byte) (n : Nonce nb) (k : Key kb) :
    stream_xor_inplace e m n k = stream_xor e m n k := by
  simp [stream_xor_inplace, stream_xor, engine_xor, List.drop_length]

/-- Claim C4: for every key `k`, nonce `n` and message `m` (including the
empty message), the output of `stream_xor m n k` has exactly the length of
`m`; there is no input producing a partial output of a different length. -/
theorem stream_xor_preserves_length {kb nb : Nat} (e : Engine)
    (m : List Byte) (n : Nonce nb) (k : Key kb) :
    (stream_xor e m n k).length = m.length :=
  length_stream_xor e m n k

/-- Claim C5: `stream` is a deterministic function of its explicit inputs:
two invocations with identical length, nonce contents and key contents
produce byte-identical output. -/
theorem stream_deterministic {kb nb : Nat} (e : Engine) (L : Nat)
    (n1 n2 : Nonce nb) (k1 k2 : Key kb)
    (hn : n1.bytes = n2.bytes) (hk : k1.bytes = k2.bytes) :
    stream e L n1 k1 = stream e L n2 k2 := by
  rw [stream_eq_map, stream_eq_map, hn, hk]

/-- Witness for C5 at a concrete engine, length, nonce and key. -/
theorem stream_deterministic_witness :
    stream (fun _ _ i => i) 5
        (⟨List.replicate 24 7, by simp⟩ : Nonce 24)
        (⟨List.replicate 32 3, by simp⟩ : Key 32) =
      stream (fun _ _ i => i) 5
        (⟨List.replicate 24 7, by simp⟩ : Nonce 24)
        (⟨List.replicate 32 3, by simp⟩ : Key 32) :=
  stream_deterministic (fun _ _ i => i) 5 _ _ _ _ rfl rfl

/-- Claim C8: for every length `L ≥ 0`, nonce and key, `stream L n k`
returns exactly `L` bytes, and `L = 0` is valid and yields the empty
output. -/
theorem stream_length_and_empty {kb nb : Nat} (e : Engine) (L : Nat)
    (n : Nonce nb) (k : Key kb) :
    (stream e L n k).length = L ∧ stream e 0 n k = [] := by
  constructor
  · simp [stream_eq_map]
  · simp [stream_eq_map]

/-- Claim C9: `stream_xor` is a deterministic pure function of its explicit
inputs: two invocations with identical message, nonce contents and key
contents produce byte-identical output. -/
theorem stream_xor_deterministic {kb nb : Nat} (e : Engine) (m : List Byte)
    (n1 n2 : Nonce nb) (k1 k2 : Key kb)
    (hn : n1.bytes = n2.bytes) (hk : k1.bytes = k2.bytes) :
    stream_xor e m n1 k1 = stream_xor e m n2 k2 := by
  rw [stream_xor_eq_map, stream_xor_eq_map, hn, hk]

/-- Witness for C9 at a concrete engine, message, nonce and key. -/
theorem stream_xor_deterministic_witness :
    stream_xor (fun _ _ i => i) [10, 20, 30]
        (⟨List.replicate 24 7, by simp⟩ : Nonce 24)
        (⟨List.replicate 32 3, by simp⟩ : Key 32) =
      stream_xor (fun _ _ i => i) [10, 20, 30]
        (⟨List.replicate 24 7, by simp⟩ : Nonce 24)
        (⟨List.replicate 32 3, by simp⟩ : Key 32) :=
  stream_xor_deterministic (fun _ _ i => i) [10, 20, 30] _ _ _ _ rfl rfl

/-- Claim C6: constructing a `Key` or a `Nonce` from a byte sequence fails
with `InvalidLength` exactly when the length differs from
`KEYBYTES` / `NONCEBYTES` (producing no partial object), and succeeds
exactly when the length is the required one. -/
theorem from_slice_validation (keybytes noncebytes : Nat) (bs : List Byte) :
    (Key.from_slice keybytes bs = .error .InvalidLength ↔
      bs.length ≠ keybytes) ∧
    ((∃ kk, Key.from_slice keybytes bs = .ok kk) ↔ bs.length = keybytes) ∧
    (Nonce.from_slice noncebytes bs = .error .InvalidLength ↔
      bs.length ≠ noncebytes) ∧
    ((∃ nn, Nonce.from_slice noncebytes bs = .ok nn) ↔
      bs.length = noncebytes) := by
  refine ⟨?_, ?_, ?_, ?_⟩
  · by_cases h : bs.length = keybytes <;> simp [Key.from_slice, h]
  · by_cases h : bs.length = keybytes <;> simp [Key.from_slice, h]
  · by_cases h : bs.length = noncebytes <;> simp [Nonce.from_slice, h]
  · by_cases h : bs.length = noncebytes <;> simp [Nonce.from_slice, h]

/-- Claim C10: the call `stream_xor(m, n, k)` leaves the message slice, the
nonce and the key unchanged: the post-call contents of the three borrowed
buffers equal their pre-call contents. -/
theorem stream_xor_frame {kb nb : Nat} (e : Engine) (m : List Byte)
    (n : Nonce nb) (k : Key kb) :
    (stream_xor_call e m n k).1 = (m, n.bytes, k.bytes) := rfl

end StreamModule
